import Mathlib

/-!
Shallow embedding of the TCP chat server (src/parser.ts, src/server.ts).

Strings are modelled as Lean `String`s (lists of scalar values); all
character-level manipulation is done on `String.data`.  JavaScript's
`String.prototype.trim` is modelled by `jsTrim` with the ECMAScript
whitespace set; `toUpperCase` is modelled as ASCII upper-casing (all
protocol keywords are ASCII).  Sockets, timestamps and the logger are
irrelevant to control flow and are omitted; a session is identified by
its socket id string and carries only its optional username.
-/

/-- The ECMAScript whitespace set used by `String.prototype.trim`:
TAB, LF, VT, FF, CR, SP, NBSP, Ogham space, U+2000..U+200A, LS, PS,
narrow no-break space, medium mathematical space, ideographic space,
and the BOM. -/
def jsWhitespace (c : Char) : Bool :=
  let n := c.toNat
  n == 0x09 || n == 0x0A || n == 0x0B || n == 0x0C || n == 0x0D ||
  n == 0x20 || n == 0xA0 || n == 0x1680 ||
  (0x2000 ≤ n && n ≤ 0x200A) || n == 0x2028 || n == 0x2029 ||
  n == 0x202F || n == 0x205F || n == 0x3000 || n == 0xFEFF

/-- Trimming on character lists: drop leading whitespace, then drop
trailing whitespace (via reverse).  Mirrors `data.trim()` in parser.ts. -/
def jsTrimList (l : List Char) : List Char :=
  (((l.dropWhile jsWhitespace).reverse.dropWhile jsWhitespace).reverse)

/-- Model of `s.trim()` of JavaScript. -/
def jsTrim (s : String) : String :=
  String.mk (jsTrimList s.data)

/-- ASCII upper-casing of one character (model of `toUpperCase`;
the parser only compares the result against ASCII keywords). -/
def asciiUpperChar (c : Char) : Char :=
  if 0x61 ≤ c.toNat && c.toNat ≤ 0x7A then Char.ofNat (c.toNat - 0x20) else c

/-- Model of `s.toUpperCase()` restricted to ASCII case mapping. -/
def asciiUpper (s : String) : String :=
  String.mk (s.data.map asciiUpperChar)

/-- Split a character list at its first space: models the combination
`indexOf(' ')` / `substring(0, i)` / `substring(i + 1)` used by
`CommandParser.parse`; `none` when the list has no space. -/
def splitFirstSpace : List Char → Option (List Char × List Char)
  | [] => none
  | c :: cs =>
    if c = ' ' then some ([], cs)
    else
      match splitFirstSpace cs with
      | none => none
      | some (a, b) => some (c :: a, b)

/-- Configuration consumed by the core.  Modelled from the spec:
`config.js` is not part of the core sources; the spec fixes the
recognized options and their defaults (max connections 100, max
username length 20, max message length 1000). -/
structure Config where
  maxConnections : Nat
  usernameMaxLength : Nat
  messageMaxLength : Nat
deriving DecidableEq, Repr

/-- Modelled from the spec: the default configuration values. -/
def defaultConfig : Config :=
  { maxConnections := 100, usernameMaxLength := 20, messageMaxLength := 1000 }

/-- The tag of a parsed command (types.ts `Command.type`). -/
inductive CommandType where
  | LOGIN | MSG | WHO | DM | UNKNOWN
deriving DecidableEq, Repr

/-- A parsed command (types.ts `Command`). -/
structure Command where
  type : CommandType
  args : List String
  raw : String
deriving DecidableEq, Repr

namespace CommandParser

/-- Model of `CommandParser.parse` of parser.ts: trim, classify the single-token
case by upper-cased comparison with WHO, otherwise select on the
upper-cased token before the first space; LOGIN/MSG take the trimmed
remainder, DM splits the remainder at its first space (UNKNOWN when it
has none) and trims the message part. -/
def parse (data : String) : Command :=
  let trimmed := jsTrim data
  if trimmed.data = [] then
    { type := .UNKNOWN, args := [], raw := trimmed }
  else
    match splitFirstSpace trimmed.data with
    | none =>
      { type := if asciiUpper trimmed = "WHO" then .WHO else .UNKNOWN,
        args := [], raw := trimmed }
    | some (cmdChars, restChars) =>
      let command := asciiUpper (String.mk cmdChars)
      let rest := jsTrim (String.mk restChars)
      if command = "LOGIN" then
        { type := .LOGIN, args := [rest], raw := trimmed }
      else if command = "MSG" then
        { type := .MSG, args := [rest], raw := trimmed }
      else if command = "DM" then
        match splitFirstSpace rest.data with
        | none => { type := .UNKNOWN, args := [], raw := trimmed }
        | some (targetChars, msgChars) =>
          { type := .DM,
            args := [String.mk targetChars, jsTrim (String.mk msgChars)],
            raw := trimmed }
      else
        { type := .UNKNOWN, args := [], raw := trimmed }

/-- The character class `[a-zA-Z0-9_-]` of the username regex. -/
def usernameChar (c : Char) : Bool :=
  let n := c.toNat
  (0x61 ≤ n && n ≤ 0x7A) || (0x41 ≤ n && n ≤ 0x5A) ||
  (0x30 ≤ n && n ≤ 0x39) || n == 0x5F || n == 0x2D

/-- Model of `CommandParser.isValidUsername`: nonempty, at most
`usernameMaxLength` characters, all in `[a-zA-Z0-9_-]`. -/
def isValidUsername (cfg : Config) (username : String) : Bool :=
  if username.data = [] then false
  else if cfg.usernameMaxLength < username.data.length then false
  else username.data.all usernameChar

/-- Model of `CommandParser.isValidMessage`: false when empty or
whitespace-only after trimming, false when longer than
`messageMaxLength` (measured before sanitization), else true. -/
def isValidMessage (cfg : Config) (message : String) : Bool :=
  if message.data = [] || (jsTrim message).data.length = 0 then false
  else if cfg.messageMaxLength < message.data.length then false
  else true

/-- The character class stripped by `sanitizeMessage`:
0x00-0x08, 0x0B, 0x0C, 0x0E-0x1F, 0x7F. -/
def strippedControl (c : Char) : Bool :=
  let n := c.toNat
  n ≤ 0x08 || n == 0x0B || n == 0x0C || (0x0E ≤ n && n ≤ 0x1F) || n == 0x7F

/-- Model of `CommandParser.sanitizeMessage`: remove every stripped control
character (the global regex replace deletes exactly the matched
characters). -/
def sanitizeMessage (message : String) : String :=
  String.mk (message.data.filter (fun c => !strippedControl c))

end CommandParser

example : CommandParser.parse "LOGIN alice" =
    { type := .LOGIN, args := ["alice"], raw := "LOGIN alice" } := by decide

example : CommandParser.parse "  who  " =
    { type := .WHO, args := [], raw := "who" } := by decide

example : CommandParser.parse "dm bob  hi there " =
    { type := .DM, args := ["bob", "hi there"], raw := "dm bob  hi there" } := by decide

example : CommandParser.parse "DM bob" =
    { type := .UNKNOWN, args := [], raw := "DM bob" } := by decide

example : CommandParser.isValidMessage defaultConfig "\u0007" = true := by decide

example : CommandParser.sanitizeMessage "\u0007" = "" := by decide

example : CommandParser.isValidMessage defaultConfig
    (CommandParser.sanitizeMessage "\u0007") = false := by decide

/-!
Association lists model the JavaScript `Map`s of server.ts: insertion
order is preserved, `set` updates in place when the key exists and
appends otherwise, `delete` removes the key, iteration follows the
list order.  Keys are unique in every reachable state (part of the
registry invariant below).
-/

/-- Model of `Map.get`: value at the first occurrence of the key. -/
def alGet {α : Type} : List (String × α) → String → Option α
  | [], _ => none
  | (k', v) :: rest, k => if k' = k then some v else alGet rest k

/-- Model of `Map.has`. -/
def alHas {α : Type} (m : List (String × α)) (k : String) : Bool :=
  (alGet m k).isSome

/-- Model of `Map.set`: replace in place, else append. -/
def alSet {α : Type} : List (String × α) → String → α → List (String × α)
  | [], k, v => [(k, v)]
  | (k', v') :: rest, k, v =>
    if k' = k then (k, v) :: rest else (k', v') :: alSet rest k v

/-- Model of `Map.delete`: drop every entry with the key (there is at most one
in any state the server builds). -/
def alDelete {α : Type} : List (String × α) → String → List (String × α)
  | [], _ => []
  | (k', v) :: rest, k =>
    if k' = k then alDelete rest k else (k', v) :: alDelete rest k

theorem alGet_alSet_self {α : Type} (m : List (String × α)) (k : String) (v : α) :
    alGet (alSet m k v) k = some v := by
  induction m with
  | nil => simp [alSet, alGet]
  | cons p rest ih =>
    obtain ⟨k', v'⟩ := p
    by_cases h : k' = k
    · subst h; simp [alSet, alGet]
    · simp [alSet, alGet, h, ih]

theorem alGet_alSet_ne {α : Type} (m : List (String × α)) (k k' : String) (v : α)
    (h : k' ≠ k) : alGet (alSet m k v) k' = alGet m k' := by
  have h2 : k ≠ k' := Ne.symm h
  induction m with
  | nil => simp [alSet, alGet, h2]
  | cons p rest ih =>
    obtain ⟨a, b⟩ := p
    by_cases ha : a = k
    · subst ha
      simp [alSet, alGet, h2]
    · simp only [alSet, if_neg ha, alGet]
      by_cases ha' : a = k'
      · simp [ha']
      · simp [ha', ih]

theorem mem_keys_alSet {α : Type} (m : List (String × α)) (k x : String) (v : α) :
    x ∈ (alSet m k v).map Prod.fst ↔ x ∈ m.map Prod.fst ∨ x = k := by
  induction m with
  | nil => simp [alSet]
  | cons p rest ih =>
    obtain ⟨a, b⟩ := p
    by_cases ha : a = k
    · subst ha
      have e : alSet ((a, b) :: rest) a v = (a, v) :: rest := by simp [alSet]
      rw [e]
      simp only [List.map_cons, List.mem_cons]
      tauto
    · simp only [alSet, if_neg ha, List.map_cons, List.mem_cons, ih]
      tauto

theorem nodup_keys_alSet {α : Type} (m : List (String × α)) (k : String) (v : α)
    (h : (m.map Prod.fst).Nodup) : ((alSet m k v).map Prod.fst).Nodup := by
  induction m with
  | nil => simp [alSet]
  | cons p rest ih =>
    obtain ⟨a, b⟩ := p
    simp only [List.map_cons, List.nodup_cons] at h
    by_cases ha : a = k
    · subst ha
      simpa [alSet] using h
    · simp only [alSet, if_neg ha, List.map_cons, List.nodup_cons]
      refine ⟨fun hmem => ?_, ih h.2⟩
      rcases (mem_keys_alSet rest k a v).mp hmem with h1 | h1
      · exact h.1 h1
      · exact ha h1

theorem length_alSet_of_has {α : Type} (m : List (String × α)) (k : String) (v : α)
    (h : alHas m k = true) : (alSet m k v).length = m.length := by
  induction m with
  | nil => simp [alHas, alGet] at h
  | cons p rest ih =>
    obtain ⟨a, b⟩ := p
    by_cases ha : a = k
    · simp [alSet, ha]
    · simp only [alHas, alGet, if_neg ha] at h
      simp [alSet, if_neg ha, ih h]

theorem length_alSet_of_not_has {α : Type} (m : List (String × α)) (k : String) (v : α)
    (h : alHas m k = false) : (alSet m k v).length = m.length + 1 := by
  induction m with
  | nil => simp [alSet]
  | cons p rest ih =>
    obtain ⟨a, b⟩ := p
    by_cases ha : a = k
    · simp [alHas, alGet, ha] at h
    · simp only [alHas, alGet, if_neg ha] at h
      simp [alSet, if_neg ha, ih h]

theorem mem_of_alGet {α : Type} (m : List (String × α)) (k : String) (v : α)
    (h : alGet m k = some v) : (k, v) ∈ m := by
  induction m with
  | nil => simp [alGet] at h
  | cons p rest ih =>
    obtain ⟨a, b⟩ := p
    by_cases ha : a = k
    · subst ha
      have hb : b = v := by simpa [alGet] using h
      subst hb; exact List.mem_cons_self _ _
    · simp only [alGet, if_neg ha] at h
      exact List.mem_cons_of_mem _ (ih h)

theorem alGet_of_mem {α : Type} (m : List (String × α)) (k : String) (v : α)
    (hn : (m.map Prod.fst).Nodup) (h : (k, v) ∈ m) : alGet m k = some v := by
  induction m with
  | nil => simp at h
  | cons p rest ih =>
    obtain ⟨a, b⟩ := p
    simp only [List.map_cons, List.nodup_cons] at hn
    rcases List.mem_cons.mp h with h1 | h1
    · obtain ⟨rfl, rfl⟩ := Prod.mk.injEq .. ▸ h1
      simp [alGet]
    · by_cases ha : a = k
      · subst ha
        exact absurd (List.mem_map.mpr ⟨(a, v), h1, rfl⟩) hn.1
      · simp only [alGet, if_neg ha]
        exact ih hn.2 h1

theorem alGet_alDelete_self {α : Type} (m : List (String × α)) (k : String) :
    alGet (alDelete m k) k = none := by
  induction m with
  | nil => rfl
  | cons p rest ih =>
    obtain ⟨a, b⟩ := p
    by_cases ha : a = k
    · simpa [alDelete, ha] using ih
    · simpa [alDelete, alGet, ha] using ih

theorem alGet_alDelete_ne {α : Type} (m : List (String × α)) (k k' : String)
    (h : k' ≠ k) : alGet (alDelete m k) k' = alGet m k' := by
  induction m with
  | nil => rfl
  | cons p rest ih =>
    obtain ⟨a, b⟩ := p
    by_cases ha : a = k
    · subst ha
      have h2 : a ≠ k' := fun hh => h hh.symm
      have e : alDelete ((a, b) :: rest) a = alDelete rest a := by simp [alDelete]
      rw [e, ih]
      simp [alGet, h2]
    · simp only [alDelete, if_neg ha, alGet]
      by_cases ha' : a = k'
      · simp [ha']
      · simp [ha', ih]

theorem alDelete_sublist {α : Type} (m : List (String × α)) (k : String) :
    (alDelete m k).Sublist m := by
  induction m with
  | nil => exact List.Sublist.refl _
  | cons p rest ih =>
    obtain ⟨a, b⟩ := p
    by_cases ha : a = k
    · subst ha
      have e : alDelete ((a, b) :: rest) a = alDelete rest a := by simp [alDelete]
      rw [e]
      exact List.Sublist.cons (a, b) ih
    · simp only [alDelete, if_neg ha]
      exact List.Sublist.cons₂ (a, b) ih

theorem nodup_keys_alDelete {α : Type} (m : List (String × α)) (k : String)
    (h : (m.map Prod.fst).Nodup) : ((alDelete m k).map Prod.fst).Nodup :=
  h.sublist ((alDelete_sublist m k).map Prod.fst)

theorem length_alDelete_le {α : Type} (m : List (String × α)) (k : String) :
    (alDelete m k).length ≤ m.length :=
  (alDelete_sublist m k).length_le

theorem mem_alDelete {α : Type} (m : List (String × α)) (k : String) (p : String × α) :
    p ∈ alDelete m k ↔ p ∈ m ∧ p.1 ≠ k := by
  induction m with
  | nil => simp [alDelete]
  | cons q rest ih =>
    obtain ⟨a, b⟩ := q
    by_cases ha : a = k
    · subst ha
      have e : alDelete ((a, b) :: rest) a = alDelete rest a := by simp [alDelete]
      rw [e]
      simp only [ih, List.mem_cons]
      constructor
      · rintro ⟨h1, h2⟩; exact ⟨Or.inr h1, h2⟩
      · rintro ⟨h1 | h1, h2⟩
        · exact absurd (congrArg Prod.fst h1) h2
        · exact ⟨h1, h2⟩
    · simp only [alDelete, if_neg ha, List.mem_cons, ih]
      constructor
      · rintro (rfl | ⟨h1, h2⟩)
        · exact ⟨Or.inl rfl, ha⟩
        · exact ⟨Or.inr h1, h2⟩
      · rintro ⟨h1 | h1, h2⟩
        · exact Or.inl h1
        · exact Or.inr ⟨h1, h2⟩

/-- A connected client (types.ts `Client`); the socket handle, remote
address and `connectedAt` timestamp do not influence control flow and
are omitted. -/
structure Client where
  username : Option String
deriving DecidableEq, Repr

/-- The registry state of `ChatServer`: `clients` is the
socketId → Client map, `usernames` the username → socketId map. -/
structure ServerState where
  clients : List (String × Client)
  usernames : List (String × String)
deriving DecidableEq, Repr

/-- The state of a freshly constructed server: both maps empty. -/
def initialState : ServerState :=
  { clients := [], usernames := [] }

/-- One outbound write: destination socket id and the line written. -/
abbrev Send := String × String

/-- Model of `ChatServer.broadcast`: write `message` to every client that has
logged in, skipping `excludeSocketId`, in map iteration order. -/
def broadcast (st : ServerState) (message : String) (excludeSocketId : Option String) :
    List Send :=
  (st.clients.filter
    (fun p => p.2.username.isSome && !(excludeSocketId == some p.1))).map
    (fun p => (p.1, message))

/-- Model of `ChatServer.handleConnection`, admission part: when the client map
already holds `maxConnections` entries, write `ERR server-full` to the
incoming socket and close it (third component `false`); otherwise
insert a fresh `Client` with no username (third component `true`).
The line-buffering part of `handleConnection` is modelled separately
by `feedChunk`. -/
def handleConnection (cfg : Config) (st : ServerState) (socketId : String) :
    ServerState × List Send × Bool :=
  if cfg.maxConnections ≤ st.clients.length then
    (st, [(socketId, "ERR server-full\n")], false)
  else
    ({ st with clients := alSet st.clients socketId { username := none } }, [], true)

/-- Model of `ChatServer.handleLogin` (the lookup of the client is done by its
caller `handleClientMessage`; here it is folded in, returning the
unchanged state when the socket id is unknown). -/
def handleLogin (cfg : Config) (st : ServerState) (socketId : String) (username : String) :
    ServerState × List Send :=
  match alGet st.clients socketId with
  | none => (st, [])
  | some client =>
    if client.username.isSome then
      (st, [(socketId, "ERR already-logged-in\n")])
    else if !CommandParser.isValidUsername cfg username then
      (st, [(socketId, "ERR invalid-username\n")])
    else if alHas st.usernames username then
      (st, [(socketId, "ERR username-taken\n")])
    else
      let st' : ServerState :=
        { clients := alSet st.clients socketId { username := some username },
          usernames := alSet st.usernames username socketId }
      (st', (socketId, "OK\n") ::
        broadcast st' ("INFO " ++ username ++ " joined\n") (some socketId))

/-- Model of `ChatServer.handleMessage`. -/
def handleMessage (cfg : Config) (st : ServerState) (socketId : String) (message : String) :
    ServerState × List Send :=
  match alGet st.clients socketId with
  | none => (st, [])
  | some client =>
    match client.username with
    | none => (st, [(socketId, "ERR not-logged-in\n")])
    | some username =>
      if !CommandParser.isValidMessage cfg message then
        (st, [(socketId, "ERR invalid-message\n")])
      else
        (st, broadcast st
          ("MSG " ++ username ++ " " ++ CommandParser.sanitizeMessage message ++ "\n")
          none)

/-- Model of `ChatServer.handleWho`. -/
def handleWho (st : ServerState) (socketId : String) : ServerState × List Send :=
  match alGet st.clients socketId with
  | none => (st, [])
  | some client =>
    match client.username with
    | none => (st, [(socketId, "ERR not-logged-in\n")])
    | some _ =>
      (st, st.usernames.map (fun p => (socketId, "USER " ++ p.1 ++ "\n")))

/-- Model of `ChatServer.handleDirectMessage`: the two consecutive lookups
(username → socket id, socket id → client) both answer
`ERR user-not-found` when they miss. -/
def handleDirectMessage (cfg : Config) (st : ServerState) (socketId : String)
    (targetUsername : String) (message : String) : ServerState × List Send :=
  match alGet st.clients socketId with
  | none => (st, [])
  | some client =>
    match client.username with
    | none => (st, [(socketId, "ERR not-logged-in\n")])
    | some senderUsername =>
      if targetUsername.data = [] || message.data = [] then
        (st, [(socketId, "ERR invalid-dm-format\n")])
      else
        match alGet st.usernames targetUsername with
        | none => (st, [(socketId, "ERR user-not-found\n")])
        | some targetSocketId =>
          match alGet st.clients targetSocketId with
          | none => (st, [(socketId, "ERR user-not-found\n")])
          | some _ =>
            if !CommandParser.isValidMessage cfg message then
              (st, [(socketId, "ERR invalid-message\n")])
            else
              (st, [(targetSocketId,
                "DM " ++ senderUsername ++ " " ++
                  CommandParser.sanitizeMessage message ++ "\n")])

/-- Model of `ChatServer.handleDisconnect`: remove the session from both maps;
when it held a username, broadcast the disconnect notice to the
remaining logged-in sessions. -/
def handleDisconnect (st : ServerState) (socketId : String) : ServerState × List Send :=
  match alGet st.clients socketId with
  | none => (st, [])
  | some client =>
    match client.username with
    | none =>
      ({ st with clients := alDelete st.clients socketId }, [])
    | some username =>
      let st' : ServerState :=
        { clients := alDelete st.clients socketId,
          usernames := alDelete st.usernames username }
      (st', broadcast st' ("INFO " ++ username ++ " disconnected\n") none)

/-- Model of `ChatServer.handleClientMessage`: parse the line and dispatch.
`args[0] || ''` of the LOGIN/MSG/DM dispatch is `List.getD _ ""`. -/
def handleClientMessage (cfg : Config) (st : ServerState) (socketId : String)
    (message : String) : ServerState × List Send :=
  match alGet st.clients socketId with
  | none => (st, [])
  | some _ =>
    let command := CommandParser.parse message
    match command.type with
    | .LOGIN => handleLogin cfg st socketId (command.args.getD 0 "")
    | .MSG => handleMessage cfg st socketId (command.args.getD 0 "")
    | .WHO => handleWho st socketId
    | .DM => handleDirectMessage cfg st socketId
        (command.args.getD 0 "") (command.args.getD 1 "")
    | .UNKNOWN => (st, [(socketId, "ERR unknown-command\n")])

/-- Split a character stream at every newline: the complete lines (in
order, without their terminators) and the unterminated remainder.
Models the `while ((newlineIndex = buffer.indexOf('\n')) !== -1)` loop
of the data handler. -/
def splitNL : List Char → List (List Char) × List Char
  | [] => ([], [])
  | c :: cs =>
    if c = '\n' then
      let (ls, r) := splitNL cs
      (([] : List Char) :: ls, r)
    else
      match splitNL cs with
      | ([], r) => ([], c :: r)
      | (l :: ls, r) => ((c :: l) :: ls, r)

/-- One `data` event of the per-connection handler in
`handleConnection`: append the chunk to the pending buffer, extract
every complete line, dispatch each line whose trim is nonempty, then
apply the overflow guard — a remainder longer than twice the maximum
message length is answered with `ERR message-too-long` and discarded.
Returns (new buffer, dispatched lines, error lines written). -/
def feedChunk (cfg : Config) (buffer chunk : List Char) :
    List Char × List (List Char) × List String :=
  if 2 * cfg.messageMaxLength < (splitNL (buffer ++ chunk)).2.length then
    ([], (splitNL (buffer ++ chunk)).1.filter (fun l => jsTrimList l ≠ []),
      ["ERR message-too-long\n"])
  else
    ((splitNL (buffer ++ chunk)).2,
      (splitNL (buffer ++ chunk)).1.filter (fun l => jsTrimList l ≠ []), [])

/-- Feed a sequence of chunks, accumulating dispatched lines and error
lines in arrival order. -/
def feedChunks (cfg : Config) (buffer : List Char) :
    List (List Char) → List Char × List (List Char) × List String
  | [] => (buffer, [], [])
  | c :: cs =>
    ((feedChunks cfg (feedChunk cfg buffer c).1 cs).1,
     (feedChunk cfg buffer c).2.1 ++ (feedChunks cfg (feedChunk cfg buffer c).1 cs).2.1,
     (feedChunk cfg buffer c).2.2 ++ (feedChunks cfg (feedChunk cfg buffer c).1 cs).2.2)

theorem head?_dropWhile_not {α : Type} (p : α → Bool) :
    ∀ (l : List α) (c : α), (l.dropWhile p).head? = some c → p c = false := by
  intro l
  induction l with
  | nil => intro c h; simp [List.dropWhile] at h
  | cons a t ih =>
    intro c h
    by_cases hp : p a
    · rw [List.dropWhile_cons_of_pos hp] at h
      exact ih c h
    · rw [List.dropWhile_cons_of_neg hp] at h
      simp only [List.head?_cons, Option.some.injEq] at h
      subst h
      exact Bool.of_not_eq_true hp

theorem jsTrimList_decomp (l : List Char) :
    ∃ t, l.dropWhile jsWhitespace = jsTrimList l ++ t ∧ ∀ c ∈ t, jsWhitespace c := by
  refine ⟨((l.dropWhile jsWhitespace).reverse.takeWhile jsWhitespace).reverse, ?_, ?_⟩
  · unfold jsTrimList
    have h1 : (l.dropWhile jsWhitespace).reverse.takeWhile jsWhitespace ++
        (l.dropWhile jsWhitespace).reverse.dropWhile jsWhitespace =
        (l.dropWhile jsWhitespace).reverse := List.takeWhile_append_dropWhile _ _
    have h2 := congrArg List.reverse h1
    rw [List.reverse_append, List.reverse_reverse] at h2
    exact h2.symm
  · intro c hc
    rw [List.mem_reverse] at hc
    exact List.mem_takeWhile_imp hc

theorem jsTrimList_head?_not (l : List Char) (c : Char)
    (h : (jsTrimList l).head? = some c) : jsWhitespace c = false := by
  obtain ⟨t, ht, _⟩ := jsTrimList_decomp l
  have hh : (l.dropWhile jsWhitespace).head? = some c := by
    rw [ht]
    cases he : jsTrimList l with
    | nil => rw [he] at h; simp at h
    | cons a r =>
      rw [he] at h
      simp only [List.head?_cons, Option.some.injEq] at h
      subst h
      simp
  exact head?_dropWhile_not jsWhitespace l c hh

theorem jsTrimList_getLast?_not (l : List Char) (c : Char)
    (h : (jsTrimList l).getLast? = some c) : jsWhitespace c = false := by
  have h2 : ((l.dropWhile jsWhitespace).reverse.dropWhile jsWhitespace).head? = some c := by
    have h3 := List.getLast?_reverse ((l.dropWhile jsWhitespace).reverse.dropWhile jsWhitespace)
    rw [← h3]
    exact h
  exact head?_dropWhile_not jsWhitespace _ c h2

theorem jsTrimList_eq_nil_iff (l : List Char) :
    jsTrimList l = [] ↔ ∀ c ∈ l, jsWhitespace c := by
  unfold jsTrimList
  rw [List.reverse_eq_nil_iff, List.dropWhile_eq_nil_iff]
  constructor
  · intro h c hc
    have hsplit : l.takeWhile jsWhitespace ++ l.dropWhile jsWhitespace = l :=
      List.takeWhile_append_dropWhile _ _
    rw [← hsplit] at hc
    rcases List.mem_append.mp hc with h1 | h1
    · exact List.mem_takeWhile_imp h1
    · exact h c (List.mem_reverse.mpr h1)
  · intro h c hc
    exact h c ((List.dropWhile_sublist _).subset (List.mem_reverse.mp hc))

theorem jsTrimList_ne_nil (l : List Char) (c : Char) (hc : c ∈ l)
    (hw : jsWhitespace c = false) : jsTrimList l ≠ [] := by
  intro h
  rw [jsTrimList_eq_nil_iff] at h
  rw [h c hc] at hw
  exact absurd hw (by decide)

theorem splitFirstSpace_eq_none_iff (l : List Char) :
    splitFirstSpace l = none ↔ ' ' ∉ l := by
  induction l with
  | nil => simp [splitFirstSpace]
  | cons a t ih =>
    by_cases ha : a = ' '
    · subst ha; simp [splitFirstSpace]
    · rw [List.mem_cons, not_or]
      cases h : splitFirstSpace t with
      | none =>
        have ht : ' ' ∉ t := ih.mp h
        have ha2 : ¬ ' ' = a := fun hh => ha hh.symm
        simp [splitFirstSpace, if_neg ha, h, ha2, ht]
      | some p =>
        obtain ⟨x, y⟩ := p
        have ht : ' ' ∈ t := by
          by_contra hmem
          rw [ih.mpr hmem] at h
          simp at h
        simp [splitFirstSpace, if_neg ha, h, ht]

theorem splitFirstSpace_eq_some (l a b : List Char)
    (h : splitFirstSpace l = some (a, b)) : l = a ++ ' ' :: b ∧ ' ' ∉ a := by
  induction l generalizing a b with
  | nil => simp [splitFirstSpace] at h
  | cons x t ih =>
    by_cases hx : x = ' '
    · subst hx
      have e : splitFirstSpace (' ' :: t) = some ([], t) := by simp [splitFirstSpace]
      rw [e] at h
      simp only [Option.some.injEq, Prod.mk.injEq] at h
      obtain ⟨ha, hb⟩ := h
      subst ha; subst hb
      simp
    · simp only [splitFirstSpace, if_neg hx] at h
      cases hs : splitFirstSpace t with
      | none => rw [hs] at h; simp at h
      | some p =>
        obtain ⟨y, z⟩ := p
        rw [hs] at h
        simp only [Option.some.injEq, Prod.mk.injEq] at h
        obtain ⟨ha, hb⟩ := h
        rw [← ha, ← hb]
        obtain ⟨ht, hns⟩ := ih y z hs
        constructor
        · rw [ht]; rfl
        · intro hmem
          rcases List.mem_cons.mp hmem with h1 | h1
          · exact hx h1.symm
          · exact hns h1

theorem splitFirstSpace_append (a b : List Char) (h : ' ' ∉ a) :
    splitFirstSpace (a ++ ' ' :: b) = some (a, b) := by
  induction a with
  | nil => simp [splitFirstSpace]
  | cons x t ih =>
    have hx : x ≠ ' ' := fun hh => h (hh ▸ List.mem_cons_self x t)
    have ht : ' ' ∉ t := fun hh => h (List.mem_cons_of_mem x hh)
    rw [List.cons_append]
    simp only [splitFirstSpace, if_neg hx, ih ht]

theorem mem_split_first {α : Type} [DecidableEq α] (x : α) :
    ∀ l : List α, x ∈ l → ∃ a b, l = a ++ x :: b ∧ x ∉ a := by
  intro l
  induction l with
  | nil => intro h; simp at h
  | cons c t ih =>
    intro h
    by_cases hc : c = x
    · exact ⟨[], t, by rw [hc]; rfl, List.not_mem_nil x⟩
    · have hx : x ∈ t := by
        rcases List.mem_cons.mp h with h1 | h1
        · exact absurd h1.symm hc
        · exact h1
      obtain ⟨a, b, hab, hna⟩ := ih hx
      refine ⟨c :: a, b, by rw [hab]; rfl, ?_⟩
      intro hmem
      rcases List.mem_cons.mp hmem with h1 | h1
      · exact hc h1.symm
      · exact hna h1

theorem nl_split (a : List Char) :
    ∀ (l b : List Char), '\n' ∉ l → '\n' ∉ a →
      l ++ ['\n'] = a ++ '\n' :: b → a = l ∧ b = [] := by
  induction a with
  | nil =>
    intro l b hl _ h
    cases l with
    | nil => simpa using h.symm
    | cons x t =>
      rw [List.nil_append] at h
      have hx : x = '\n' := by
        have := congrArg List.head? h
        simpa using this
      exact absurd (hx ▸ List.mem_cons_self x t) hl
  | cons x a' ih =>
    intro l b hl ha h
    have hx : x ≠ '\n' := fun hh => ha (hh ▸ List.mem_cons_self x a')
    have ha' : '\n' ∉ a' := fun hh => ha (List.mem_cons_of_mem x hh)
    cases l with
    | nil =>
      rw [List.nil_append] at h
      have hx2 : '\n' = x := by
        have := congrArg List.head? h
        simpa using this
      exact absurd hx2.symm hx
    | cons y t =>
      rw [List.cons_append, List.cons_append] at h
      have hy : y = x := by
        have := congrArg List.head? h
        simpa using this
      have ht : '\n' ∉ t := fun hh => hl (List.mem_cons_of_mem y hh)
      have htail : t ++ ['\n'] = a' ++ '\n' :: b := by
        have := congrArg List.tail h
        simpa using this
      obtain ⟨h1, h2⟩ := ih t b ht ha' htail
      exact ⟨by rw [hy, h1], h2⟩

theorem splitNL_no_newline (l : List Char) (h : '\n' ∉ l) : splitNL l = ([], l) := by
  induction l with
  | nil => rfl
  | cons c t ih =>
    have hc : c ≠ '\n' := fun hh => h (hh ▸ List.mem_cons_self c t)
    have ht : '\n' ∉ t := fun hh => h (List.mem_cons_of_mem c hh)
    simp only [splitNL, if_neg hc, ih ht]

theorem splitNL_line (l : List Char) (h : '\n' ∉ l) :
    splitNL (l ++ ['\n']) = ([l], []) := by
  induction l with
  | nil => rfl
  | cons c t ih =>
    have hc : c ≠ '\n' := fun hh => h (hh ▸ List.mem_cons_self c t)
    have ht : '\n' ∉ t := fun hh => h (List.mem_cons_of_mem c hh)
    rw [List.cons_append]
    simp only [splitNL, if_neg hc, ih ht]

theorem feedChunks_empty_chunks (cfg : Config) (cs : List (List Char))
    (h : cs.flatten = []) : feedChunks cfg [] cs = ([], [], []) := by
  induction cs with
  | nil => rfl
  | cons c t ih =>
    rw [List.flatten_cons, List.append_eq_nil] at h
    obtain ⟨rfl, ht⟩ := h
    have h1 : feedChunk cfg [] [] = ([], [], []) := by
      simp [feedChunk, splitNL]
    simp [feedChunks, h1, ih ht]

theorem feedChunks_of_split (cfg : Config) (l : List Char)
    (hnl : '\n' ∉ l) (hlen : l.length ≤ 2 * cfg.messageMaxLength) :
    ∀ (cs : List (List Char)) (buf : List Char), '\n' ∉ buf →
      buf ++ cs.flatten = l ++ ['\n'] →
      feedChunks cfg buf cs =
        ([], [l].filter (fun x => jsTrimList x ≠ []), []) := by
  intro cs
  induction cs with
  | nil =>
    intro buf hbuf heq
    rw [List.flatten_nil, List.append_nil] at heq
    exact absurd (heq ▸ List.mem_append_right l (List.mem_singleton_self '\n')) hbuf
  | cons c cs' ih =>
    intro buf hbuf heq
    rw [List.flatten_cons] at heq
    by_cases hc : '\n' ∈ c
    · obtain ⟨c1, c2, hc12, hc1⟩ := mem_split_first '\n' c hc
      have hbc1 : '\n' ∉ buf ++ c1 := by
        intro hmem
        rcases List.mem_append.mp hmem with h1 | h1
        · exact hbuf h1
        · exact hc1 h1
      have heq2 : l ++ ['\n'] = (buf ++ c1) ++ '\n' :: (c2 ++ cs'.flatten) := by
        rw [hc12] at heq
        rw [← heq]
        simp
      obtain ⟨h1, h2⟩ := nl_split (buf ++ c1) l (c2 ++ cs'.flatten) hnl hbc1 heq2
      rw [List.append_eq_nil] at h2
      obtain ⟨rfl, hflat⟩ := h2
      have hbufc : buf ++ c = l ++ ['\n'] := by
        rw [hc12, ← h1]
        simp
      have hfeed : feedChunk cfg buf c =
          ([], [l].filter (fun x => jsTrimList x ≠ []), []) := by
        unfold feedChunk
        rw [hbufc, splitNL_line l hnl]
        simp
      simp only [feedChunks, hfeed, feedChunks_empty_chunks cfg cs' hflat]
      simp
    · have hbc : '\n' ∉ buf ++ c := by
        intro hmem
        rcases List.mem_append.mp hmem with h1 | h1
        · exact hbuf h1
        · exact hc h1
      have hlen1 := congrArg List.length heq
      simp only [List.length_append, List.length_cons, List.length_nil] at hlen1
      have hlenbc : buf.length + c.length ≤ l.length := by
        by_contra hgt
        push_neg at hgt
        have hflat0 : cs'.flatten.length = 0 := by omega
        have hflate : cs'.flatten = [] := List.length_eq_zero.mp hflat0
        rw [hflate, List.append_nil] at heq
        exact hbc (heq ▸ List.mem_append_right l (List.mem_singleton_self '\n'))
      have hfeed : feedChunk cfg buf c = (buf ++ c, [], []) := by
        unfold feedChunk
        rw [splitNL_no_newline (buf ++ c) hbc]
        simp only [List.length_append]
        have hle : ¬ 2 * cfg.messageMaxLength < buf.length + c.length := by omega
        simp [hle]
      have heq2 : (buf ++ c) ++ cs'.flatten = l ++ ['\n'] := by
        rw [List.append_assoc]
        exact heq
      simp only [feedChunks, hfeed, ih (buf ++ c) hbc heq2]
      simp

/-- One transition of the registry: a fresh connection is admitted or
rejected by `handleConnection` (socket ids are remote endpoints, so a
live socket id is never reused while present), a complete line from a
connected socket is dispatched by `handleClientMessage`, or a socket
closes or errors and `handleDisconnect` runs. -/
inductive Step (cfg : Config) : ServerState → ServerState → Prop
  | connect (st : ServerState) (socketId : String)
      (h : alHas st.clients socketId = false) :
      Step cfg st (handleConnection cfg st socketId).1
  | line (st : ServerState) (socketId message : String) :
      Step cfg st (handleClientMessage cfg st socketId message).1
  | disconnect (st : ServerState) (socketId : String) :
      Step cfg st (handleDisconnect st socketId).1

/-- States reachable from the freshly constructed server. -/
def Reachable (cfg : Config) (st : ServerState) : Prop :=
  Relation.ReflTransGen (Step cfg) initialState st

theorem mem_broadcast (st : ServerState) (message : String) (excl : Option String)
    (hn : (st.clients.map Prod.fst).Nodup) (sid m : String) :
    (sid, m) ∈ broadcast st message excl ↔
      m = message ∧ excl ≠ some sid ∧
        ∃ c, alGet st.clients sid = some c ∧ c.username.isSome = true := by
  unfold broadcast
  rw [List.mem_map]
  constructor
  · rintro ⟨p, hp, heq⟩
    obtain ⟨hmem, hpred⟩ := List.mem_filter.mp hp
    have hfst : p.1 = sid := congrArg Prod.fst heq
    have hsnd : message = m := congrArg Prod.snd heq
    rw [Bool.and_eq_true] at hpred
    obtain ⟨husr, hexcl⟩ := hpred
    rw [Bool.not_eq_true', beq_eq_false_iff_ne] at hexcl
    refine ⟨hsnd.symm, hfst ▸ hexcl, p.2, ?_, husr⟩
    rw [← hfst]
    exact alGet_of_mem st.clients p.1 p.2 hn (by rw [Prod.mk.eta]; exact hmem)
  · rintro ⟨rfl, hexcl, c, hget, husr⟩
    refine ⟨(sid, c), List.mem_filter.mpr ⟨mem_of_alGet _ _ _ hget, ?_⟩, rfl⟩
    rw [Bool.and_eq_true, Bool.not_eq_true', beq_eq_false_iff_ne]
    exact ⟨husr, hexcl⟩

theorem broadcast_keys_nodup (st : ServerState) (message : String) (excl : Option String)
    (hn : (st.clients.map Prod.fst).Nodup) :
    ((broadcast st message excl).map Prod.fst).Nodup := by
  unfold broadcast
  rw [List.map_map]
  have he : (Prod.fst ∘ fun p : String × Client => (p.1, message)) = Prod.fst := rfl
  rw [he]
  exact hn.sublist ((List.filter_sublist _).map Prod.fst)

theorem handleMessage_state (cfg : Config) (st : ServerState) (sid t : String) :
    (handleMessage cfg st sid t).1 = st := by
  unfold handleMessage
  (repeat' split) <;> rfl

theorem handleWho_state (st : ServerState) (sid : String) :
    (handleWho st sid).1 = st := by
  unfold handleWho
  (repeat' split) <;> rfl

theorem handleDirectMessage_state (cfg : Config) (st : ServerState)
    (sid target text : String) :
    (handleDirectMessage cfg st sid target text).1 = st := by
  unfold handleDirectMessage
  (repeat' split) <;> rfl

/-- The registry state produced by the success branch of `handleLogin`. -/
def loginSuccess (st : ServerState) (socketId username : String) : ServerState :=
  { clients := alSet st.clients socketId { username := some username },
    usernames := alSet st.usernames username socketId }

theorem handleLogin_state (cfg : Config) (st : ServerState) (sid u : String) :
    (handleLogin cfg st sid u).1 = st ∨
    ∃ c, alGet st.clients sid = some c ∧ c.username = none ∧
      CommandParser.isValidUsername cfg u = true ∧ alHas st.usernames u = false ∧
      (handleLogin cfg st sid u).1 = loginSuccess st sid u := by
  unfold handleLogin
  cases hc : alGet st.clients sid with
  | none => exact Or.inl rfl
  | some client =>
    by_cases husr : client.username.isSome
    · simp [husr]
    · by_cases hvalid : CommandParser.isValidUsername cfg u
      · by_cases htaken : alHas st.usernames u
        · simp [husr, hvalid, htaken]
        · refine Or.inr ⟨client, rfl, ?_, ?_, ?_, ?_⟩
          · exact Option.not_isSome_iff_eq_none.mp husr
          · exact hvalid
          · exact Bool.not_eq_true _ ▸ htaken
          · simp [husr, hvalid, htaken, loginSuccess]
      · simp [husr, hvalid]

theorem handleClientMessage_state (cfg : Config) (st : ServerState) (sid msg : String) :
    (handleClientMessage cfg st sid msg).1 = st ∨
    ∃ u c, alGet st.clients sid = some c ∧ c.username = none ∧
      CommandParser.isValidUsername cfg u = true ∧ alHas st.usernames u = false ∧
      (handleClientMessage cfg st sid msg).1 = loginSuccess st sid u := by
  unfold handleClientMessage
  split
  · exact Or.inl rfl
  · dsimp only
    split
    · rcases handleLogin_state cfg st sid _ with h | ⟨c, h1, h2, h3, h4, h5⟩
      · exact Or.inl h
      · exact Or.inr ⟨_, c, h1, h2, h3, h4, h5⟩
    · exact Or.inl (handleMessage_state cfg st sid _)
    · exact Or.inl (handleWho_state st sid)
    · exact Or.inl (handleDirectMessage_state cfg st sid _ _)
    · exact Or.inl rfl

/-- Spec invariant A: a username is a key of `usernameToSessionId` iff
exactly one live session holds it. -/
def InvariantA (st : ServerState) : Prop :=
  ∀ u : String, alHas st.usernames u = true ↔
    st.clients.countP (fun p => p.2.username = some u) = 1

/-- Spec invariant B: every value of `usernameToSessionId` is a key
present in `sessionsById`. -/
def InvariantB (st : ServerState) : Prop :=
  ∀ u sid : String, alGet st.usernames u = some sid →
    alHas st.clients sid = true

/-- The inductive registry invariant: both key lists are duplicate
free, the two maps are inverse on logged-in sessions, and every
registered username passed validation. -/
structure RegInv (cfg : Config) (st : ServerState) : Prop where
  clientsNodup : (st.clients.map Prod.fst).Nodup
  usernamesNodup : (st.usernames.map Prod.fst).Nodup
  userToClient : ∀ u sid, alGet st.usernames u = some sid →
    ∃ c, alGet st.clients sid = some c ∧ c.username = some u
  clientToUser : ∀ sid c u, alGet st.clients sid = some c →
    c.username = some u → alGet st.usernames u = some sid
  usernamesValid : ∀ u sid, alGet st.usernames u = some sid →
    CommandParser.isValidUsername cfg u = true
  sizeBound : st.clients.length ≤ cfg.maxConnections

theorem alHas_false_iff {α : Type} (m : List (String × α)) (k : String) :
    alHas m k = false ↔ alGet m k = none := by
  unfold alHas
  cases alGet m k <;> simp

theorem alHas_true_iff {α : Type} (m : List (String × α)) (k : String) :
    alHas m k = true ↔ ∃ v, alGet m k = some v := by
  unfold alHas
  cases alGet m k <;> simp

theorem regInv_initial (cfg : Config) : RegInv cfg initialState := by
  refine ⟨?_, ?_, ?_, ?_, ?_, ?_⟩
  · simp [initialState]
  · simp [initialState]
  · intro u sid hget
    simp [initialState, alGet] at hget
  · intro sid c u hget
    simp [initialState, alGet] at hget
  · intro u sid hget
    simp [initialState, alGet] at hget
  · simp [initialState]

theorem regInv_handleConnection (cfg : Config) (st : ServerState) (sid : String)
    (h : RegInv cfg st) (hfresh : alHas st.clients sid = false) :
    RegInv cfg (handleConnection cfg st sid).1 := by
  have hfn : alGet st.clients sid = none := (alHas_false_iff _ _).mp hfresh
  unfold handleConnection
  by_cases hcap : cfg.maxConnections ≤ st.clients.length
  · simpa [hcap] using h
  · rw [if_neg hcap]
    dsimp only
    refine ⟨nodup_keys_alSet _ _ _ h.clientsNodup, h.usernamesNodup, ?_, ?_,
      h.usernamesValid, ?_⟩
    · intro u' sid' hget'
      obtain ⟨c₂, hc₂, hcu₂⟩ := h.userToClient u' sid' hget'
      have hs : sid' ≠ sid := by
        intro hh
        rw [hh, hfn] at hc₂
        exact Option.noConfusion hc₂
      refine ⟨c₂, ?_, hcu₂⟩
      rw [alGet_alSet_ne _ _ _ _ hs]
      exact hc₂
    · intro sid' c' u' hget' hu'
      by_cases hs : sid' = sid
      · subst hs
        rw [alGet_alSet_self] at hget'
        injection hget' with hc'
        rw [← hc'] at hu'
        exact Option.noConfusion hu'
      · rw [alGet_alSet_ne _ _ _ _ hs] at hget'
        exact h.clientToUser sid' c' u' hget' hu'
    · rw [length_alSet_of_not_has _ _ _ hfresh]
      omega

theorem regInv_loginSuccess (cfg : Config) (st : ServerState) (sid u : String) (c : Client)
    (h : RegInv cfg st) (hc : alGet st.clients sid = some c) (hnone : c.username = none)
    (hvalid : CommandParser.isValidUsername cfg u = true)
    (hnotaken : alHas st.usernames u = false) :
    RegInv cfg (loginSuccess st sid u) := by
  have hnu : alGet st.usernames u = none := (alHas_false_iff _ _).mp hnotaken
  refine ⟨nodup_keys_alSet _ _ _ h.clientsNodup, nodup_keys_alSet _ _ _ h.usernamesNodup,
    ?_, ?_, ?_, ?_⟩
  · intro u' sid' hget'
    by_cases hu : u' = u
    · subst hu
      rw [loginSuccess] at hget'
      dsimp only at hget'
      rw [alGet_alSet_self] at hget'
      injection hget' with hsid
      subst hsid
      refine ⟨{ username := some u' }, ?_, rfl⟩
      rw [loginSuccess]
      dsimp only
      rw [alGet_alSet_self]
    · rw [loginSuccess] at hget'
      dsimp only at hget'
      rw [alGet_alSet_ne _ _ _ _ hu] at hget'
      obtain ⟨c₂, hc₂, hcu₂⟩ := h.userToClient u' sid' hget'
      have hs : sid' ≠ sid := by
        intro hh
        rw [hh, hc] at hc₂
        injection hc₂ with hcc
        rw [← hcc, hnone] at hcu₂
        exact Option.noConfusion hcu₂
      refine ⟨c₂, ?_, hcu₂⟩
      rw [loginSuccess]
      dsimp only
      rw [alGet_alSet_ne _ _ _ _ hs]
      exact hc₂
  · intro sid' c' u' hget' hu'
    rw [loginSuccess] at hget'
    dsimp only at hget'
    by_cases hs : sid' = sid
    · subst hs
      rw [alGet_alSet_self] at hget'
      injection hget' with hc'
      rw [← hc'] at hu'
      injection hu' with huu
      rw [loginSuccess]
      dsimp only
      rw [← huu, alGet_alSet_self]
    · rw [alGet_alSet_ne _ _ _ _ hs] at hget'
      have hold := h.clientToUser sid' c' u' hget' hu'
      have hne : u' ≠ u := by
        intro hh
        rw [hh, hnu] at hold
        exact Option.noConfusion hold
      rw [loginSuccess]
      dsimp only
      rw [alGet_alSet_ne _ _ _ _ hne]
      exact hold
  · intro u' sid' hget'
    by_cases hu : u' = u
    · subst hu
      exact hvalid
    · rw [loginSuccess] at hget'
      dsimp only at hget'
      rw [alGet_alSet_ne _ _ _ _ hu] at hget'
      exact h.usernamesValid u' sid' hget'
  · rw [loginSuccess]
    dsimp only
    have hhas : alHas st.clients sid = true := (alHas_true_iff _ _).mpr ⟨c, hc⟩
    rw [length_alSet_of_has _ _ _ hhas]
    exact h.sizeBound

theorem regInv_handleDisconnect (cfg : Config) (st : ServerState) (sid : String)
    (h : RegInv cfg st) : RegInv cfg (handleDisconnect st sid).1 := by
  unfold handleDisconnect
  cases hc : alGet st.clients sid with
  | none => exact h
  | some client =>
    dsimp only
    cases hu : client.username with
    | none =>
      dsimp only
      refine ⟨nodup_keys_alDelete _ _ h.clientsNodup, h.usernamesNodup, ?_, ?_,
        h.usernamesValid, ?_⟩
      · intro u' sid' hget'
        obtain ⟨c₂, hc₂, hcu₂⟩ := h.userToClient u' sid' hget'
        have hs : sid' ≠ sid := by
          intro hh
          rw [hh, hc] at hc₂
          injection hc₂ with hcc
          rw [← hcc, hu] at hcu₂
          exact Option.noConfusion hcu₂
        refine ⟨c₂, ?_, hcu₂⟩
        rw [alGet_alDelete_ne _ _ _ hs]
        exact hc₂
      · intro sid' c' u' hget' hu'
        have hs : sid' ≠ sid := by
          intro hh
          rw [hh, alGet_alDelete_self] at hget'
          exact Option.noConfusion hget'
        rw [alGet_alDelete_ne _ _ _ hs] at hget'
        exact h.clientToUser sid' c' u' hget' hu'
      · exact le_trans (length_alDelete_le _ _) h.sizeBound
    | some uu =>
      dsimp only
      refine ⟨nodup_keys_alDelete _ _ h.clientsNodup,
        nodup_keys_alDelete _ _ h.usernamesNodup, ?_, ?_, ?_, ?_⟩
      · intro u' sid' hget'
        have hneq : u' ≠ uu := by
          intro hh
          rw [hh, alGet_alDelete_self] at hget'
          exact Option.noConfusion hget'
        rw [alGet_alDelete_ne _ _ _ hneq] at hget'
        obtain ⟨c₂, hc₂, hcu₂⟩ := h.userToClient u' sid' hget'
        have hs : sid' ≠ sid := by
          intro hh
          rw [hh, hc] at hc₂
          injection hc₂ with hcc
          rw [← hcc, hu] at hcu₂
          injection hcu₂ with huu2
          exact hneq huu2.symm
        refine ⟨c₂, ?_, hcu₂⟩
        rw [alGet_alDelete_ne _ _ _ hs]
        exact hc₂
      · intro sid' c' u' hget' hu'
        have hs : sid' ≠ sid := by
          intro hh
          rw [hh, alGet_alDelete_self] at hget'
          exact Option.noConfusion hget'
        rw [alGet_alDelete_ne _ _ _ hs] at hget'
        have hold := h.clientToUser sid' c' u' hget' hu'
        have hneq : u' ≠ uu := by
          intro hh
          have h2 := h.clientToUser sid client uu hc hu
          rw [hh] at hold
          rw [hold] at h2
          injection h2 with hss
          exact hs hss
        rw [alGet_alDelete_ne _ _ _ hneq]
        exact hold
      · intro u' sid' hget'
        have hneq : u' ≠ uu := by
          intro hh
          rw [hh, alGet_alDelete_self] at hget'
          exact Option.noConfusion hget'
        rw [alGet_alDelete_ne _ _ _ hneq] at hget'
        exact h.usernamesValid u' sid' hget'
      · exact le_trans (length_alDelete_le _ _) h.sizeBound

theorem regInv_step (cfg : Config) (st st' : ServerState) (h : RegInv cfg st)
    (hs : Step cfg st st') : RegInv cfg st' := by
  cases hs with
  | connect sid hfresh => exact regInv_handleConnection cfg st sid h hfresh
  | line sid msg =>
    rcases handleClientMessage_state cfg st sid msg with he | ⟨u, c, h1, h2, h3, h4, he⟩
    · rw [he]; exact h
    · rw [he]; exact regInv_loginSuccess cfg st sid u c h h1 h2 h3 h4
  | disconnect sid => exact regInv_handleDisconnect cfg st sid h

theorem regInv_reachable (cfg : Config) (st : ServerState) (h : Reachable cfg st) :
    RegInv cfg st := by
  induction h with
  | refl => exact regInv_initial cfg
  | tail _ hstep ih => exact regInv_step cfg _ _ ih hstep

example :
    handleLogin defaultConfig
      { clients := [("s1", { username := none }), ("s2", { username := some "bob" })],
        usernames := [("bob", "s2")] } "s1" "alice" =
    ({ clients := [("s1", { username := some "alice" }),
                   ("s2", { username := some "bob" })],
       usernames := [("bob", "s2"), ("alice", "s1")] },
     [("s1", "OK\n"), ("s2", "INFO alice joined\n")]) := by decide

theorem length_le_one_of_keys_const {α : Type} (l : List (String × α)) (k : String)
    (hn : (l.map Prod.fst).Nodup) (hall : ∀ x ∈ l, x.1 = k) : l.length ≤ 1 := by
  cases l with
  | nil => simp
  | cons a t =>
    cases t with
    | nil => simp
    | cons b t2 =>
      exfalso
      have ha := hall a (List.mem_cons_self a _)
      have hb := hall b (List.mem_cons_of_mem a (List.mem_cons_self b t2))
      rw [List.map_cons, List.map_cons, List.nodup_cons] at hn
      exact hn.1 (List.mem_cons.mpr (Or.inl (ha.trans hb.symm)))

theorem invariantA_of_regInv (cfg : Config) (st : ServerState) (h : RegInv cfg st) :
    InvariantA st := by
  intro u
  rw [List.countP_eq_length_filter]
  constructor
  · intro hhas
    obtain ⟨sid, hget⟩ := (alHas_true_iff _ _).mp hhas
    obtain ⟨c, hc, hcu⟩ := h.userToClient u sid hget
    have hmem : (sid, c) ∈ st.clients := mem_of_alGet _ _ _ hc
    have hmemf : (sid, c) ∈ st.clients.filter (fun p => p.2.username = some u) := by
      rw [List.mem_filter]
      exact ⟨hmem, by simp [hcu]⟩
    have hall : ∀ x ∈ st.clients.filter (fun p => p.2.username = some u), x.1 = sid := by
      intro x hx
      obtain ⟨hxmem, hxp⟩ := List.mem_filter.mp hx
      have hxu : x.2.username = some u := by simpa using hxp
      have hxget : alGet st.clients x.1 = some x.2 :=
        alGet_of_mem _ _ _ h.clientsNodup (by rw [Prod.mk.eta]; exact hxmem)
      have h2 := h.clientToUser x.1 x.2 u hxget hxu
      rw [hget] at h2
      injection h2 with hss
      exact hss.symm
    have hnf : ((st.clients.filter (fun p => p.2.username = some u)).map Prod.fst).Nodup :=
      h.clientsNodup.sublist ((List.filter_sublist _).map Prod.fst)
    have h1 : (st.clients.filter (fun p => p.2.username = some u)).length ≤ 1 :=
      length_le_one_of_keys_const _ sid hnf hall
    have h2 : 0 < (st.clients.filter (fun p => p.2.username = some u)).length :=
      List.length_pos.mpr (List.ne_nil_of_mem hmemf)
    omega
  · intro hcount
    obtain ⟨x, hx⟩ := List.length_eq_one.mp hcount
    have hxf : x ∈ st.clients.filter (fun p => p.2.username = some u) := by
      rw [hx]
      exact List.mem_singleton_self x
    obtain ⟨hxmem, hxp⟩ := List.mem_filter.mp hxf
    have hxu : x.2.username = some u := by simpa using hxp
    have hxget : alGet st.clients x.1 = some x.2 :=
      alGet_of_mem _ _ _ h.clientsNodup (by rw [Prod.mk.eta]; exact hxmem)
    have h2 := h.clientToUser x.1 x.2 u hxget hxu
    rw [alHas_true_iff]
    exact ⟨x.1, h2⟩

theorem invariantB_of_regInv (cfg : Config) (st : ServerState) (h : RegInv cfg st) :
    InvariantB st := by
  intro u sid hget
  obtain ⟨c, hc, _⟩ := h.userToClient u sid hget
  exact (alHas_true_iff _ _).mpr ⟨c, hc⟩

/-- C1: Registry invariants A and B hold in every state reachable by
the registry operations (admitting a connection, handling a line --
including a login -- and removing a session on disconnect): a username
is a key of the username map iff exactly one live session holds it,
and every value of the username map is a key of the session map. -/
theorem C1_registry_invariants (cfg : Config) (st : ServerState)
    (h : Reachable cfg st) : InvariantA st ∧ InvariantB st :=
  ⟨invariantA_of_regInv cfg st (regInv_reachable cfg st h),
   invariantB_of_regInv cfg st (regInv_reachable cfg st h)⟩

theorem C1_witness :
    InvariantA { clients := [("s1", { username := some "alice" })],
                 usernames := [("alice", "s1")] } ∧
    InvariantB { clients := [("s1", { username := some "alice" })],
                 usernames := [("alice", "s1")] } := by
  have h0 : Reachable defaultConfig initialState := Relation.ReflTransGen.refl
  have h1 : Reachable defaultConfig
      (handleConnection defaultConfig initialState "s1").1 :=
    Relation.ReflTransGen.tail h0 (Step.connect initialState "s1" (by decide))
  have h2 : Reachable defaultConfig
      (handleClientMessage defaultConfig
        (handleConnection defaultConfig initialState "s1").1 "s1" "LOGIN alice").1 :=
    Relation.ReflTransGen.tail h1 (Step.line _ "s1" "LOGIN alice")
  have he : (handleClientMessage defaultConfig
      (handleConnection defaultConfig initialState "s1").1 "s1" "LOGIN alice").1 =
      { clients := [("s1", { username := some "alice" })],
        usernames := [("alice", "s1")] } := by decide
  rw [he] at h2
  exact C1_registry_invariants defaultConfig _ h2

/-- C6: an incoming connection arriving while the number of live
sessions already equals the configured maximum receives exactly
`ERR server-full` and is closed (admission flag `false`) with both
registry maps unchanged, and the number of live sessions never exceeds
the configured maximum in any reachable state. -/
theorem C6_capacity (cfg : Config) (st : ServerState) (sid : String)
    (h : Reachable cfg st) :
    st.clients.length ≤ cfg.maxConnections ∧
    (st.clients.length = cfg.maxConnections →
      handleConnection cfg st sid = (st, [(sid, "ERR server-full\n")], false)) := by
  refine ⟨(regInv_reachable cfg st h).sizeBound, ?_⟩
  intro heq
  unfold handleConnection
  rw [if_pos (le_of_eq heq.symm)]

theorem C6_witness :
    handleConnection { maxConnections := 1, usernameMaxLength := 20, messageMaxLength := 1000 }
      { clients := [("s1", { username := none })], usernames := [] } "s2" =
    ({ clients := [("s1", { username := none })], usernames := [] },
     [("s2", "ERR server-full\n")], false) := by
  have h0 : Reachable
      { maxConnections := 1, usernameMaxLength := 20, messageMaxLength := 1000 }
      initialState := Relation.ReflTransGen.refl
  have h1 : Reachable
      { maxConnections := 1, usernameMaxLength := 20, messageMaxLength := 1000 }
      (handleConnection
        { maxConnections := 1, usernameMaxLength := 20, messageMaxLength := 1000 }
        initialState "s1").1 :=
    Relation.ReflTransGen.tail h0 (Step.connect initialState "s1" (by decide))
  have he : (handleConnection
      { maxConnections := 1, usernameMaxLength := 20, messageMaxLength := 1000 }
      initialState "s1").1 =
      { clients := [("s1", { username := none })], usernames := [] } := by decide
  rw [he] at h1
  exact (C6_capacity
    { maxConnections := 1, usernameMaxLength := 20, messageMaxLength := 1000 }
    _ "s2" h1).2 (by decide)

/-- C2: the LOGIN precondition checks run in order (already logged in,
then username validity, then availability), each failure writing
exactly one ERR line to the sender and leaving the state unchanged;
on success the session's username is set, the mapping is inserted,
`OK` goes to the sender and `INFO <u> joined` is broadcast exactly to
the other logged-in sessions. -/
theorem C2_login_cases (cfg : Config) (st : ServerState) (sid u : String) (c : Client)
    (hn : (st.clients.map Prod.fst).Nodup)
    (hc : alGet st.clients sid = some c) :
    (c.username.isSome = true →
       handleLogin cfg st sid u = (st, [(sid, "ERR already-logged-in\n")])) ∧
    (c.username = none → CommandParser.isValidUsername cfg u = false →
       handleLogin cfg st sid u = (st, [(sid, "ERR invalid-username\n")])) ∧
    (c.username = none → CommandParser.isValidUsername cfg u = true →
       alHas st.usernames u = true →
       handleLogin cfg st sid u = (st, [(sid, "ERR username-taken\n")])) ∧
    (c.username = none → CommandParser.isValidUsername cfg u = true →
       alHas st.usernames u = false →
       handleLogin cfg st sid u =
         (loginSuccess st sid u,
          (sid, "OK\n") ::
            broadcast (loginSuccess st sid u) ("INFO " ++ u ++ " joined\n") (some sid)) ∧
       (∀ sid' m, (sid', m) ∈
            broadcast (loginSuccess st sid u) ("INFO " ++ u ++ " joined\n") (some sid) ↔
          (m = "INFO " ++ u ++ " joined\n" ∧ sid' ≠ sid ∧
           ∃ c', alGet (loginSuccess st sid u).clients sid' = some c' ∧
             c'.username.isSome = true))) := by
  refine ⟨?_, ?_, ?_, ?_⟩
  · intro husr
    unfold handleLogin
    rw [hc]
    dsimp only
    rw [if_pos husr]
  · intro hnone hinvalid
    unfold handleLogin
    rw [hc]
    dsimp only
    rw [if_neg (by rw [hnone]; simp), if_pos (by rw [hinvalid]; rfl)]
  · intro hnone hvalid htaken
    unfold handleLogin
    rw [hc]
    dsimp only
    rw [if_neg (by rw [hnone]; simp), if_neg (by rw [hvalid]; simp), if_pos htaken]
  · intro hnone hvalid hfree
    constructor
    · unfold handleLogin
      rw [hc]
      dsimp only
      rw [if_neg (by rw [hnone]; simp), if_neg (by rw [hvalid]; simp),
        if_neg (by rw [hfree]; simp)]
      rfl
    · intro sid' m
      rw [mem_broadcast (loginSuccess st sid u) ("INFO " ++ u ++ " joined\n")
        (some sid) (nodup_keys_alSet _ _ _ hn) sid' m]
      constructor
      · rintro ⟨h1, h2, h3⟩
        exact ⟨h1, fun hh => h2 (by rw [hh]), h3⟩
      · rintro ⟨h1, h2, h3⟩
        refine ⟨h1, fun hh => h2 (Option.some.inj hh).symm, h3⟩

/-- C3: MSG requires login (`ERR not-logged-in`) and a valid body
(`ERR invalid-message`, nothing broadcast); otherwise the single line
`MSG <username> <sanitized>` is delivered exactly once to every
logged-in session including the sender and to no session that has not
logged in. -/
theorem C3_message_spec (cfg : Config) (st : ServerState) (sid t : String) (c : Client)
    (hn : (st.clients.map Prod.fst).Nodup)
    (hc : alGet st.clients sid = some c) :
    (c.username = none →
       handleMessage cfg st sid t = (st, [(sid, "ERR not-logged-in\n")])) ∧
    (∀ u, c.username = some u → CommandParser.isValidMessage cfg t = false →
       handleMessage cfg st sid t = (st, [(sid, "ERR invalid-message\n")])) ∧
    (∀ u, c.username = some u → CommandParser.isValidMessage cfg t = true →
       handleMessage cfg st sid t =
         (st, broadcast st
           ("MSG " ++ u ++ " " ++ CommandParser.sanitizeMessage t ++ "\n") none) ∧
       (∀ sid' m, (sid', m) ∈ (handleMessage cfg st sid t).2 ↔
          (m = "MSG " ++ u ++ " " ++ CommandParser.sanitizeMessage t ++ "\n" ∧
           ∃ c', alGet st.clients sid' = some c' ∧ c'.username.isSome = true)) ∧
       ((handleMessage cfg st sid t).2.map Prod.fst).Nodup ∧
       (sid, "MSG " ++ u ++ " " ++ CommandParser.sanitizeMessage t ++ "\n") ∈
         (handleMessage cfg st sid t).2) := by
  refine ⟨?_, ?_, ?_⟩
  · intro hnone
    unfold handleMessage
    rw [hc]
    dsimp only
    rw [hnone]
  · intro u husr hinvalid
    unfold handleMessage
    rw [hc]
    dsimp only
    rw [husr]
    dsimp only
    rw [if_pos (by rw [hinvalid]; rfl)]
  · intro u husr hvalid
    have he : handleMessage cfg st sid t =
        (st, broadcast st
          ("MSG " ++ u ++ " " ++ CommandParser.sanitizeMessage t ++ "\n") none) := by
      unfold handleMessage
      rw [hc]
      dsimp only
      rw [husr]
      dsimp only
      rw [if_neg (by rw [hvalid]; simp)]
    refine ⟨he, ?_, ?_, ?_⟩
    · intro sid' m
      rw [he]
      dsimp only
      rw [mem_broadcast st _ none hn sid' m]
      constructor
      · rintro ⟨h1, _, h3⟩
        exact ⟨h1, h3⟩
      · rintro ⟨h1, h3⟩
        exact ⟨h1, by simp, h3⟩
    · rw [he]
      exact broadcast_keys_nodup st _ none hn
    · rw [he]
      dsimp only
      rw [mem_broadcast st _ none hn sid _]
      exact ⟨rfl, by simp, c, hc, by rw [husr]; rfl⟩

/-- C4: the DM checks run in order -- login, non-empty target and
text, target resolution (both lookup failures answer
`ERR user-not-found`), body validity -- each failure writing exactly
one ERR line to the sender; on success the single line
`DM <sender> <sanitized>` goes to the target session only. -/
theorem C4_dm_spec (cfg : Config) (st : ServerState) (sid target text : String) (c : Client)
    (hc : alGet st.clients sid = some c) :
    (c.username = none →
       handleDirectMessage cfg st sid target text =
         (st, [(sid, "ERR not-logged-in\n")])) ∧
    (∀ u, c.username = some u → (target.data = [] ∨ text.data = []) →
       handleDirectMessage cfg st sid target text =
         (st, [(sid, "ERR invalid-dm-format\n")])) ∧
    (∀ u, c.username = some u → target.data ≠ [] → text.data ≠ [] →
       alGet st.usernames target = none →
       handleDirectMessage cfg st sid target text =
         (st, [(sid, "ERR user-not-found\n")])) ∧
    (∀ u tsid, c.username = some u → target.data ≠ [] → text.data ≠ [] →
       alGet st.usernames target = some tsid → alGet st.clients tsid = none →
       handleDirectMessage cfg st sid target text =
         (st, [(sid, "ERR user-not-found\n")])) ∧
    (∀ u tsid tc, c.username = some u → target.data ≠ [] → text.data ≠ [] →
       alGet st.usernames target = some tsid → alGet st.clients tsid = some tc →
       CommandParser.isValidMessage cfg text = false →
       handleDirectMessage cfg st sid target text =
         (st, [(sid, "ERR invalid-message\n")])) ∧
    (∀ u tsid tc, c.username = some u → target.data ≠ [] → text.data ≠ [] →
       alGet st.usernames target = some tsid → alGet st.clients tsid = some tc →
       CommandParser.isValidMessage cfg text = true →
       handleDirectMessage cfg st sid target text =
         (st, [(tsid,
           "DM " ++ u ++ " " ++ CommandParser.sanitizeMessage text ++ "\n")])) := by
  refine ⟨?_, ?_, ?_, ?_, ?_, ?_⟩
  · intro hnone
    unfold handleDirectMessage
    rw [hc]
    dsimp only
    rw [hnone]
  · intro u husr hempty
    unfold handleDirectMessage
    rw [hc]
    dsimp only
    rw [husr]
    dsimp only
    rw [if_pos (show (decide (target.data = []) || decide (text.data = [])) = true by
      rcases hempty with h | h <;> simp [h])]
  · intro u husr ht hx hu0
    unfold handleDirectMessage
    rw [hc]
    dsimp only
    rw [husr]
    dsimp only
    rw [if_neg (by simp [ht, hx]), hu0]
  · intro u tsid husr ht hx hu1 hc1
    unfold handleDirectMessage
    rw [hc]
    dsimp only
    rw [husr]
    dsimp only
    rw [if_neg (by simp [ht, hx]), hu1]
    dsimp only
    rw [hc1]
  · intro u tsid tc husr ht hx hu1 hc1 hinvalid
    unfold handleDirectMessage
    rw [hc]
    dsimp only
    rw [husr]
    dsimp only
    rw [if_neg (by simp [ht, hx]), hu1]
    dsimp only
    rw [hc1]
    dsimp only
    rw [if_pos (by rw [hinvalid]; rfl)]
  · intro u tsid tc husr ht hx hu1 hc1 hvalid
    unfold handleDirectMessage
    rw [hc]
    dsimp only
    rw [husr]
    dsimp only
    rw [if_neg (by simp [ht, hx]), hu1]
    dsimp only
    rw [hc1]
    dsimp only
    rw [if_neg (by rw [hvalid]; simp)]

/-- C5: on close or error the session is removed from both registry
maps; exactly when it held a username, `INFO <username> disconnected`
is broadcast to the remaining logged-in sessions (and never to
sessions that are not logged in); immediately after removal the
username key is free again, so a LOGIN with the same name from any
other not-logged-in session succeeds. -/
theorem C5_disconnect_spec (cfg : Config) (st : ServerState) (sid : String) (c : Client)
    (hinv : RegInv cfg st)
    (hc : alGet st.clients sid = some c) :
    (c.username = none →
       handleDisconnect st sid =
         ({ clients := alDelete st.clients sid, usernames := st.usernames }, [])) ∧
    (∀ u, c.username = some u →
       handleDisconnect st sid =
         ({ clients := alDelete st.clients sid, usernames := alDelete st.usernames u },
          broadcast { clients := alDelete st.clients sid,
                      usernames := alDelete st.usernames u }
            ("INFO " ++ u ++ " disconnected\n") none) ∧
       (∀ sid' m, (sid', m) ∈ (handleDisconnect st sid).2 ↔
          (m = "INFO " ++ u ++ " disconnected\n" ∧
           ∃ c', alGet (alDelete st.clients sid) sid' = some c' ∧
             c'.username.isSome = true)) ∧
       alHas (handleDisconnect st sid).1.usernames u = false ∧
       (∀ sid' c', alGet (handleDisconnect st sid).1.clients sid' = some c' →
          c'.username = none →
          handleLogin cfg (handleDisconnect st sid).1 sid' u =
            (loginSuccess (handleDisconnect st sid).1 sid' u,
             (sid', "OK\n") ::
               broadcast (loginSuccess (handleDisconnect st sid).1 sid' u)
                 ("INFO " ++ u ++ " joined\n") (some sid')))) := by
  constructor
  · intro hnone
    unfold handleDisconnect
    rw [hc]
    dsimp only
    rw [hnone]
  · intro u husr
    have he : handleDisconnect st sid =
        ({ clients := alDelete st.clients sid, usernames := alDelete st.usernames u },
         broadcast { clients := alDelete st.clients sid,
                     usernames := alDelete st.usernames u }
           ("INFO " ++ u ++ " disconnected\n") none) := by
      unfold handleDisconnect
      rw [hc]
      dsimp only
      rw [husr]
    have hvalid : CommandParser.isValidUsername cfg u = true :=
      hinv.usernamesValid u sid (hinv.clientToUser sid c u hc husr)
    refine ⟨he, ?_, ?_, ?_⟩
    · intro sid' m
      rw [he]
      dsimp only
      rw [mem_broadcast _ _ none (nodup_keys_alDelete _ _ hinv.clientsNodup) sid' m]
      constructor
      · rintro ⟨h1, _, h3⟩
        exact ⟨h1, h3⟩
      · rintro ⟨h1, h3⟩
        exact ⟨h1, by simp, h3⟩
    · rw [he]
      dsimp only
      rw [alHas_false_iff]
      exact alGet_alDelete_self st.usernames u
    · intro sid' c' hget' hnone'
      have hfree : alHas (handleDisconnect st sid).1.usernames u = false := by
        rw [he]
        dsimp only
        rw [alHas_false_iff]
        exact alGet_alDelete_self st.usernames u
      unfold handleLogin
      rw [hget']
      dsimp only
      rw [if_neg (by rw [hnone']; simp), if_neg (by rw [hvalid]; simp),
        if_neg (by rw [hfree]; simp)]
      rfl

theorem C2_witness :
    handleLogin defaultConfig
      { clients := [("s1", { username := none }), ("s2", { username := some "bob" })],
        usernames := [("bob", "s2")] } "s1" "alice" =
    ({ clients := [("s1", { username := some "alice" }),
                   ("s2", { username := some "bob" })],
       usernames := [("bob", "s2"), ("alice", "s1")] },
     [("s1", "OK\n"), ("s2", "INFO alice joined\n")]) := by
  have h := (C2_login_cases defaultConfig
    { clients := [("s1", { username := none }), ("s2", { username := some "bob" })],
      usernames := [("bob", "s2")] } "s1" "alice" { username := none }
    (by decide) (by decide)).2.2.2 rfl (by decide) (by decide)
  rw [h.1]
  decide

theorem C3_witness :
    handleMessage defaultConfig
      { clients := [("s1", { username := some "alice" }), ("s3", { username := none })],
        usernames := [("alice", "s1")] } "s1" "hi" =
    ({ clients := [("s1", { username := some "alice" }), ("s3", { username := none })],
       usernames := [("alice", "s1")] },
     [("s1", "MSG alice hi\n")]) := by
  have h := (C3_message_spec defaultConfig
    { clients := [("s1", { username := some "alice" }), ("s3", { username := none })],
      usernames := [("alice", "s1")] } "s1" "hi" { username := some "alice" }
    (by decide) (by decide)).2.2 "alice" rfl (by decide)
  rw [h.1]
  decide

theorem C4_witness :
    handleDirectMessage defaultConfig
      { clients := [("s1", { username := some "alice" }), ("s2", { username := some "bob" })],
        usernames := [("alice", "s1"), ("bob", "s2")] } "s1" "bob" "hi" =
    ({ clients := [("s1", { username := some "alice" }), ("s2", { username := some "bob" })],
       usernames := [("alice", "s1"), ("bob", "s2")] },
     [("s2", "DM alice hi\n")]) := by
  have h := (C4_dm_spec defaultConfig
    { clients := [("s1", { username := some "alice" }), ("s2", { username := some "bob" })],
      usernames := [("alice", "s1"), ("bob", "s2")] } "s1" "bob" "hi"
    { username := some "alice" } (by decide)).2.2.2.2.2
    "alice" "s2" { username := some "bob" } rfl (by decide) (by decide)
    (by decide) (by decide) (by decide)
  rw [h]
  decide

theorem C5_witness :
    handleDisconnect
      { clients := [("s1", { username := some "alice" }), ("s2", { username := some "bob" })],
        usernames := [("alice", "s1"), ("bob", "s2")] } "s1" =
    ({ clients := [("s2", { username := some "bob" })], usernames := [("bob", "s2")] },
     [("s2", "INFO alice disconnected\n")]) := by
  have h0 : Reachable defaultConfig initialState := Relation.ReflTransGen.refl
  have h1 := Relation.ReflTransGen.tail h0 (Step.connect initialState "s1" (by decide))
  have h2 := Relation.ReflTransGen.tail h1 (Step.line _ "s1" "LOGIN alice")
  have h3 := Relation.ReflTransGen.tail h2 (Step.connect _ "s2" (by decide))
  have h4 := Relation.ReflTransGen.tail h3 (Step.line _ "s2" "LOGIN bob")
  have h5 : Reachable defaultConfig
      { clients := [("s1", { username := some "alice" }),
                    ("s2", { username := some "bob" })],
        usernames := [("alice", "s1"), ("bob", "s2")] } := by
    have he : (handleClientMessage defaultConfig
        (handleConnection defaultConfig
          (handleClientMessage defaultConfig
            (handleConnection defaultConfig initialState "s1").1
            "s1" "LOGIN alice").1 "s2").1 "s2" "LOGIN bob").1 =
        { clients := [("s1", { username := some "alice" }),
                      ("s2", { username := some "bob" })],
          usernames := [("alice", "s1"), ("bob", "s2")] } := by decide
    rw [← he]
    exact h4
  have hinv := regInv_reachable defaultConfig _ h5
  have h := (C5_disconnect_spec defaultConfig _ "s1" { username := some "alice" }
    hinv (by decide)).2 "alice" rfl
  rw [h.1]
  decide

/-- C8 fails on the code as stated: the BEL character 0x07 is not
ECMAScript whitespace, so `"\u0007"` passes `isValidMessage`, yet
sanitization strips it, and the empty result is invalid. -/
theorem C8_counterexample :
    CommandParser.isValidMessage defaultConfig
        (CommandParser.sanitizeMessage "\u0007") ≠
      CommandParser.isValidMessage defaultConfig "\u0007" := by decide

/-- C8 (amended): for every message accepted by `isValidMessage` that
contains at least one ordinary character -- one that is neither
whitespace nor a stripped control character -- the message is still
accepted after `sanitizeMessage` strips the control characters
0x00-0x08, 0x0B-0x0C, 0x0E-0x1F and 0x7F. -/
theorem C8_sanitize_preserves_validity (cfg : Config) (s : String)
    (hvalid : CommandParser.isValidMessage cfg s = true)
    (hc : ∃ c ∈ s.data, jsWhitespace c = false ∧ CommandParser.strippedControl c = false) :
    CommandParser.isValidMessage cfg (CommandParser.sanitizeMessage s) = true := by
  obtain ⟨c, hcm, hw, hs⟩ := hc
  have hlen : ¬ cfg.messageMaxLength < s.data.length := by
    unfold CommandParser.isValidMessage at hvalid
    split at hvalid
    · exact absurd hvalid (by decide)
    · split at hvalid
      · exact absurd hvalid (by decide)
      · assumption
  have hfd : (CommandParser.sanitizeMessage s).data =
      s.data.filter (fun x => !CommandParser.strippedControl x) := rfl
  have hcf : c ∈ (CommandParser.sanitizeMessage s).data := by
    rw [hfd, List.mem_filter]
    exact ⟨hcm, by rw [hs]; rfl⟩
  have hne : (CommandParser.sanitizeMessage s).data ≠ [] :=
    List.ne_nil_of_mem hcf
  have htrim : jsTrimList (CommandParser.sanitizeMessage s).data ≠ [] :=
    jsTrimList_ne_nil _ c hcf hw
  have hlen2 : (CommandParser.sanitizeMessage s).data.length ≤ s.data.length := by
    rw [hfd]
    exact List.length_filter_le _ _
  unfold CommandParser.isValidMessage
  have ht0 : (jsTrim (CommandParser.sanitizeMessage s)).data.length ≠ 0 := by
    intro hh
    exact htrim (List.length_eq_zero.mp hh)
  have ht1 : ¬ (jsTrim (CommandParser.sanitizeMessage s)).length = 0 := ht0
  rw [if_neg (by simp [hne, ht1]), if_neg (by omega)]

theorem C8_witness :
    CommandParser.isValidMessage defaultConfig
      (CommandParser.sanitizeMessage "hi\u0001") = true :=
  C8_sanitize_preserves_validity defaultConfig "hi\u0001" (by decide)
    ⟨'h', by decide, by decide, by decide⟩

/-- C9: a newline-terminated line short enough that the pending buffer
stays within twice the maximum message length dispatches exactly the
same lines, in the same order, with the same final buffer and the same
error output, no matter how it is split into successive inbound
chunks. -/
theorem C9_chunking (cfg : Config) (l : List Char) (cs : List (List Char))
    (hnl : '\n' ∉ l) (hlen : l.length ≤ 2 * cfg.messageMaxLength)
    (hjoin : cs.flatten = l ++ ['\n']) :
    feedChunks cfg [] cs = feedChunks cfg [] [l ++ ['\n']] := by
  have h1 := feedChunks_of_split cfg l hnl hlen cs [] (by simp) (by simpa using hjoin)
  have h2 := feedChunks_of_split cfg l hnl hlen [l ++ ['\n']] [] (by simp) (by simp)
  rw [h1, h2]

theorem C9_witness :
    feedChunks defaultConfig [] ["LOGIN ali".data, "ce\n".data] =
      feedChunks defaultConfig [] ["LOGIN alice\n".data] := by
  have h := C9_chunking defaultConfig "LOGIN alice".data
    ["LOGIN ali".data, "ce\n".data] (by decide) (by decide) (by decide)
  have he : "LOGIN alice".data ++ ['\n'] = "LOGIN alice\n".data := by decide
  rw [he] at h
  exact h

/-- C7: `parse` first trims, then classifies: a whitespace-only line
is UNKNOWN with no arguments; a single-token line is WHO exactly when
its upper-casing is `WHO` and UNKNOWN otherwise; when the trimmed line
splits as a token, a space and a remainder (the token containing no
space), the upper-cased token selects the command -- LOGIN and MSG
carry the trimmed remainder as their only argument, DM splits the
remainder at its first internal space into target and trimmed message
(UNKNOWN when the remainder has no space), and every other token
yields UNKNOWN. -/
theorem C7_parse_spec (s : String) :
    (jsTrim s = "" → CommandParser.parse s =
       { type := .UNKNOWN, args := [], raw := jsTrim s }) ∧
    ((jsTrim s).data ≠ [] → ' ' ∉ (jsTrim s).data →
       CommandParser.parse s =
         { type := if asciiUpper (jsTrim s) = "WHO" then .WHO else .UNKNOWN,
           args := [], raw := jsTrim s }) ∧
    (∀ tok r0, (jsTrim s).data = tok ++ ' ' :: r0 → ' ' ∉ tok →
       (asciiUpper (String.mk tok) = "LOGIN" →
          CommandParser.parse s =
            { type := .LOGIN, args := [jsTrim (String.mk r0)], raw := jsTrim s }) ∧
       (asciiUpper (String.mk tok) = "MSG" →
          CommandParser.parse s =
            { type := .MSG, args := [jsTrim (String.mk r0)], raw := jsTrim s }) ∧
       (asciiUpper (String.mk tok) = "DM" →
          (' ' ∉ (jsTrim (String.mk r0)).data →
             CommandParser.parse s =
               { type := .UNKNOWN, args := [], raw := jsTrim s }) ∧
          (∀ tgt m0, (jsTrim (String.mk r0)).data = tgt ++ ' ' :: m0 → ' ' ∉ tgt →
             CommandParser.parse s =
               { type := .DM, args := [String.mk tgt, jsTrim (String.mk m0)],
                 raw := jsTrim s })) ∧
       (asciiUpper (String.mk tok) ≠ "LOGIN" → asciiUpper (String.mk tok) ≠ "MSG" →
          asciiUpper (String.mk tok) ≠ "DM" →
          CommandParser.parse s =
            { type := .UNKNOWN, args := [], raw := jsTrim s })) := by
  refine ⟨?_, ?_, ?_⟩
  · intro h
    have hd : (jsTrim s).data = [] := by rw [h]
    unfold CommandParser.parse
    dsimp only
    rw [if_pos hd]
  · intro hne hnospace
    unfold CommandParser.parse
    dsimp only
    rw [if_neg hne, (splitFirstSpace_eq_none_iff _).mpr hnospace]
  · intro tok r0 hdecomp hnotok
    have hne : (jsTrim s).data ≠ [] := by
      rw [hdecomp]
      intro hh
      have := congrArg List.length hh
      simp at this
    have hsplit : splitFirstSpace (jsTrim s).data = some (tok, r0) := by
      rw [hdecomp]
      exact splitFirstSpace_append tok r0 hnotok
    refine ⟨?_, ?_, ?_, ?_⟩
    · intro hlogin
      unfold CommandParser.parse
      dsimp only
      rw [if_neg hne, hsplit]
      dsimp only
      rw [if_pos hlogin]
    · intro hmsg
      unfold CommandParser.parse
      dsimp only
      rw [if_neg hne, hsplit]
      dsimp only
      rw [if_neg (show ¬ asciiUpper (String.mk tok) = "LOGIN" by rw [hmsg]; decide),
        if_pos hmsg]
    · intro hdm
      constructor
      · intro hnospace2
        unfold CommandParser.parse
        dsimp only
        rw [if_neg hne, hsplit]
        dsimp only
        rw [if_neg (show ¬ asciiUpper (String.mk tok) = "LOGIN" by rw [hdm]; decide),
          if_neg (show ¬ asciiUpper (String.mk tok) = "MSG" by rw [hdm]; decide),
          if_pos hdm, (splitFirstSpace_eq_none_iff _).mpr hnospace2]
      · intro tgt m0 hdecomp2 hnotgt
        unfold CommandParser.parse
        dsimp only
        rw [if_neg hne, hsplit]
        dsimp only
        rw [if_neg (show ¬ asciiUpper (String.mk tok) = "LOGIN" by rw [hdm]; decide),
          if_neg (show ¬ asciiUpper (String.mk tok) = "MSG" by rw [hdm]; decide),
          if_pos hdm, hdecomp2, splitFirstSpace_append tgt m0 hnotgt]
    · intro hnl hnm hnd
      unfold CommandParser.parse
      dsimp only
      rw [if_neg hne, hsplit]
      dsimp only
      rw [if_neg hnl, if_neg hnm, if_neg hnd]

theorem C7_witness :
    CommandParser.parse " dm Bob  hello there " =
    { type := .DM, args := ["Bob", "hello there"],
      raw := "dm Bob  hello there" } := by
  have h := ((C7_parse_spec " dm Bob  hello there ").2.2
    "dm".data "Bob  hello there".data (by decide) (by decide)).2.2.1 (by decide)
  have h2 := h.2 "Bob".data " hello there".data (by decide) (by decide)
  rw [h2]
  decide

theorem head?_append_left {α : Type} (l₁ l₂ : List α) (c : α) (h : l₁.head? = some c) :
    (l₁ ++ l₂).head? = some c := by
  cases l₁ with
  | nil => simp at h
  | cons a t => simpa using h

theorem dm_line_ne_err (u m : String) :
    ("DM " ++ u ++ " " ++ m ++ "\n") ≠ "ERR invalid-dm-format\n" := by
  intro heq
  have hL : ("DM " ++ u ++ " " ++ m ++ "\n").data.head? = some 'D' := by
    rw [String.data_append, String.data_append, String.data_append, String.data_append]
    exact head?_append_left _ _ _ (head?_append_left _ _ _ (head?_append_left _ _ _
      (head?_append_left _ _ _ (by decide))))
  have hR : ("ERR invalid-dm-format\n" : String).data.head? = some 'E' := by decide
  have h2 : some 'D' = some 'E' := by rw [← hL, ← hR, heq]
  exact absurd h2 (by decide)

theorem parse_DM_shape (s : String) (h : (CommandParser.parse s).type = CommandType.DM) :
    ∃ tgt m0, (CommandParser.parse s).args = [String.mk tgt, jsTrim (String.mk m0)] ∧
      tgt ≠ [] ∧ (jsTrim (String.mk m0)).data ≠ [] := by
  unfold CommandParser.parse at h ⊢
  dsimp only at h ⊢
  by_cases h0 : (jsTrim s).data = []
  · rw [if_pos h0] at h
    exact absurd h (by simp)
  · rw [if_neg h0] at h ⊢
    cases hsp : splitFirstSpace (jsTrim s).data with
    | none =>
      rw [hsp] at h
      dsimp only at h
      split at h <;> exact absurd h (by simp)
    | some p =>
      obtain ⟨tokChars, restChars⟩ := p
      rw [hsp] at h
      dsimp only at h ⊢
      by_cases hl : asciiUpper (String.mk tokChars) = "LOGIN"
      · rw [if_pos hl] at h
        exact absurd h (by simp)
      · rw [if_neg hl] at h ⊢
        by_cases hm : asciiUpper (String.mk tokChars) = "MSG"
        · rw [if_pos hm] at h
          exact absurd h (by simp)
        · rw [if_neg hm] at h ⊢
          by_cases hd : asciiUpper (String.mk tokChars) = "DM"
          · rw [if_pos hd] at h ⊢
            cases hsp2 : splitFirstSpace (jsTrim (String.mk restChars)).data with
            | none =>
              rw [hsp2] at h
              dsimp only at h
              exact absurd h (by simp)
            | some q =>
              obtain ⟨tgt, m0⟩ := q
              rw [hsp2] at h
              dsimp only at h ⊢
              obtain ⟨hrdecomp, hnotgt⟩ := splitFirstSpace_eq_some _ tgt m0 hsp2
              have hrd : jsTrimList restChars = tgt ++ ' ' :: m0 := hrdecomp
              refine ⟨tgt, m0, rfl, ?_, ?_⟩
              · intro htgt0
                rw [htgt0] at hrd
                have hh : (jsTrimList restChars).head? = some ' ' := by
                  rw [hrd]
                  rfl
                have hw := jsTrimList_head?_not restChars ' ' hh
                exact absurd hw (by decide)
              · have hm0ne : m0 ≠ [] := by
                  intro hm0
                  rw [hm0] at hrd
                  have hlast : (jsTrimList restChars).getLast? = some ' ' := by
                    rw [hrd, List.getLast?_append_of_ne_nil tgt (by simp)]
                    rfl
                  have hw := jsTrimList_getLast?_not restChars ' ' hlast
                  exact absurd hw (by decide)
                obtain ⟨c, hc⟩ : ∃ c, m0.getLast? = some c := by
                  cases hgl : m0.getLast? with
                  | none => exact absurd (List.getLast?_eq_none_iff.mp hgl) hm0ne
                  | some c => exact ⟨c, rfl⟩
                have hlast2 : (jsTrimList restChars).getLast? = some c := by
                  have hre : tgt ++ ' ' :: m0 = (tgt ++ [' ']) ++ m0 := by simp
                  rw [hrd, hre, List.getLast?_append_of_ne_nil _ hm0ne]
                  exact hc
                have hwc := jsTrimList_getLast?_not restChars c hlast2
                have hcm : c ∈ m0 := by
                  obtain ⟨hne2, heq2⟩ :=
                    List.mem_getLast?_eq_getLast (Option.mem_def.mpr hc)
                  rw [heq2]
                  exact List.getLast_mem hne2
                exact jsTrimList_ne_nil m0 c hcm hwc
          · rw [if_neg hd] at h
            exact absurd h (by simp)

theorem handleDirectMessage_no_format_err (cfg : Config) (st : ServerState)
    (sid : String) (target text : String) (c : Client) (u : String)
    (hc : alGet st.clients sid = some c) (hu : c.username = some u)
    (ht : target.data ≠ []) (hx : text.data ≠ []) :
    ∀ x ∈ (handleDirectMessage cfg st sid target text).2,
      x.2 ≠ "ERR invalid-dm-format\n" := by
  unfold handleDirectMessage
  rw [hc]
  dsimp only
  rw [hu]
  dsimp only
  rw [if_neg (by simp [ht, hx])]
  cases h1 : alGet st.usernames target with
  | none =>
    intro y hy
    rw [List.mem_singleton] at hy
    rw [hy]
    exact (by decide : ("ERR user-not-found\n" : String) ≠ "ERR invalid-dm-format\n")
  | some tsid =>
    dsimp only
    cases h2 : alGet st.clients tsid with
    | none =>
      intro y hy
      rw [List.mem_singleton] at hy
      rw [hy]
      exact (by decide : ("ERR user-not-found\n" : String) ≠ "ERR invalid-dm-format\n")
    | some tc =>
      dsimp only
      by_cases hv : CommandParser.isValidMessage cfg text = true
      · rw [if_neg (by simp [hv])]
        intro y hy
        rw [List.mem_singleton] at hy
        rw [hy]
        exact dm_line_ne_err u (CommandParser.sanitizeMessage text)
      · rw [if_pos (by simp [Bool.not_eq_true] at hv ⊢; exact hv)]
        intro y hy
        rw [List.mem_singleton] at hy
        rw [hy]
        exact (by decide : ("ERR invalid-message\n" : String) ≠ "ERR invalid-dm-format\n")

/-- C10: every line that `parse` classifies as DM carries two
non-empty arguments -- the target (the token before the first internal
space of the trimmed remainder) and the trimmed message -- so for a
logged-in sender the `ERR invalid-dm-format` branch of
`handleDirectMessage` can never fire on a parse-produced command. -/
theorem C10_dm_args_nonempty (s : String)
    (h : (CommandParser.parse s).type = CommandType.DM) :
    (∃ target msg, (CommandParser.parse s).args = [target, msg] ∧
       target.data ≠ [] ∧ msg.data ≠ []) ∧
    (∀ cfg st sid c u, alGet st.clients sid = some c → c.username = some u →
       ∀ x ∈ (handleClientMessage cfg st sid s).2,
         x.2 ≠ "ERR invalid-dm-format\n") := by
  obtain ⟨tgt, m0, hargs, htgt, hmsg⟩ := parse_DM_shape s h
  refine ⟨⟨String.mk tgt, jsTrim (String.mk m0), hargs, htgt, hmsg⟩, ?_⟩
  intro cfg st sid c u hc hu
  have hg0 : (CommandParser.parse s).args.getD 0 "" = String.mk tgt := by
    rw [hargs]
    rfl
  have hg1 : (CommandParser.parse s).args.getD 1 "" = jsTrim (String.mk m0) := by
    rw [hargs]
    rfl
  intro x hx
  unfold handleClientMessage at hx
  rw [hc] at hx
  dsimp only at hx
  rw [h] at hx
  dsimp only at hx
  rw [hg0, hg1] at hx
  exact handleDirectMessage_no_format_err cfg st sid (String.mk tgt)
    (jsTrim (String.mk m0)) c u hc hu htgt hmsg x hx

theorem C10_witness :
    (∃ target msg, (CommandParser.parse "DM bob hi").args = [target, msg] ∧
       target.data ≠ [] ∧ msg.data ≠ []) ∧
    (∀ x ∈ (handleClientMessage defaultConfig
        { clients := [("s1", { username := some "alice" })],
          usernames := [("alice", "s1")] } "s1" "DM bob hi").2,
       x.2 ≠ "ERR invalid-dm-format\n") := by
  have h := C10_dm_args_nonempty "DM bob hi" (by decide)
  exact ⟨h.1, h.2 defaultConfig _ "s1" { username := some "alice" } "alice"
    (by decide) rfl⟩
